import Mathlib

/-!
# Verification of the MAC Cosmetics scraper pipeline

A shallow embedding, in Lean 4, of the batch-planning, progress-ledger,
image-resolution and output-saving logic of the scrapers in
`Mac/Scripts/mac_final_scraper.py`, `Mac/Scripts/mac_cosmetics_comprehensive_scraper.py`
and `Mac/Scripts/mac_advanced_scraper.py`, together with theorems settling the
specification's claims about them.

Modelling conventions:
* Product identities (URLs) are elements of an arbitrary type `α` with decidable
  equality where only membership tests matter, and `String` where string
  operations matter.
* Python sets that the code only ever tests membership in, adds to, and
  serialises are modelled as lists (`scraped_urls`).
* Network and file-system effects are inputs: an HTTP response is an
  `Option` document, the HEAD probe of a candidate image URL is a
  `String → Bool` parameter, and the state of the progress file is a
  `ProgressFile` value.
-/

namespace MacScraper

/-- One product record as built by the scrapers (`product_info` dictionaries).
Only the fields the claims mention are kept: `name`, `product_url` and
`image_url`; a missing image is the empty string, exactly as in
`mac_final_scraper.py` line 412 (`'image_url': ''`). -/
structure Product where
  name : String
  product_url : String
  image_url : String
deriving DecidableEq

/-- Constant `self.batch_size = 10` (products per category), `mac_final_scraper.py` line 54. -/
def batch_size : Nat := 10

/-- Constant `self.max_total_products = 60` (maximum products per run), `mac_final_scraper.py` line 55. -/
def max_total_products : Nat := 60

/-- The duplicate-removal loop at the end of
`BatchedMACCosmeticsScraper.discover_products_in_category`
(`mac_final_scraper.py` lines 217-223): walk the list keeping each URL not in
the accumulated `seen_urls` set, updating the set as it goes. -/
def dedupFirst {α} [DecidableEq α] (seen : List α) : List α → List α
  | [] => []
  | u :: us => if u ∈ seen then dedupFirst seen us else u :: dedupFirst (u :: seen) us

/-- Function `discover_products_in_category` (`mac_final_scraper.py` lines 170-226), with
the per-category raw candidate URL list (as produced by the selector loops, in
order) as input: candidates whose URL is already in `self.scraped_urls` are
skipped (lines 203-206) and the survivors are deduplicated keeping first
occurrences (lines 217-223). -/
def newCandidates {α} [DecidableEq α] (scraped_urls : List α) (candidates : List α) : List α :=
  dedupFirst [] (candidates.filter (fun u => decide (u ∉ scraped_urls)))

/-- Step 2 of `BatchedMACCosmeticsScraper.scrape_batched`
(`mac_final_scraper.py` lines 375-397): iterate over the categories; before
each category, break if `total_scraped >= self.max_total_products`; otherwise
take the first `batch_size` not-yet-seen candidates of the category, extend
`all_new_products` with them, and add their number to `total_scraped`.
The result is the run's planned work list (`all_new_products`). -/
def planRun {α} [DecidableEq α] (scraped_urls : List α) : List (List α) → Nat → List α
  | [], _ => []
  | c :: cs, total =>
    if max_total_products ≤ total then []
    else
      let batch := (newCandidates scraped_urls c).take batch_size
      batch ++ planRun scraped_urls cs (total + batch.length)

/-- The same loop, keeping the per-category batches separate
(`batch_products = products_in_category[:self.batch_size]`,
`mac_final_scraper.py` line 388): element `i` is what category `i` contributes
to the run's work list. -/
def planBatches {α} [DecidableEq α] (scraped_urls : List α) : List (List α) → Nat → List (List α)
  | [], _ => []
  | c :: cs, total =>
    if max_total_products ≤ total then []
    else
      let batch := (newCandidates scraped_urls c).take batch_size
      batch :: planBatches scraped_urls cs (total + batch.length)

/-- Step 3 of `scrape_batched` (`mac_final_scraper.py` lines 400-437) adds
every planned item's URL to `self.scraped_urls` unconditionally
(`self.scraped_urls.add(product['url'])`, line 431), whether or not image
resolution succeeded. The in-memory ledger after the loop is therefore the
initial ledger together with every planned URL. -/
def runLedgerAfter {α} (scraped_urls planned : List α) : List α :=
  scraped_urls ++ planned

/-- The record built for one planned URL in step 3 of `scrape_batched`
(`mac_final_scraper.py` lines 406-428): the product's name, its URL, and the
result of image extraction (empty string when extraction returned nothing). -/
def scrapeRecords (planned : List String) (nameOf imgOf : String → String) : List Product :=
  planned.map (fun u => { name := nameOf u, product_url := u, image_url := imgOf u })

/-- Method `BatchedMACCosmeticsScraper.save_to_json` (`mac_final_scraper.py` lines
445-499): the new products are filtered down to those with a truthy
(non-empty) `image_url` (line 452) and appended after the products already in
the output file (line 466); the combined list is what is written back as the
`products` array. -/
def save_to_json_batched (existing new_products : List Product) : List Product :=
  existing ++ new_products.filter (fun p => decide (p.image_url ≠ ""))

/-- The `products` array persisted after a sequence of runs of the batched
scraper, starting from no output file (`existing_products = []`,
`mac_final_scraper.py` line 455): each run appends its image-filtered products
to the file's current contents. -/
def batchedRunsOutput (runs : List (List Product)) : List Product :=
  runs.foldl save_to_json_batched []

/-- Method `ComprehensiveMACCosmeticsScraper.save_to_json`
(`mac_cosmetics_comprehensive_scraper.py` lines 735-763): the `products` array
written out is exactly the input filtered to records with a non-empty
`image_url` (line 739). -/
def save_to_json_comprehensive (products : List Product) : List Product :=
  products.filter (fun p => decide (p.image_url ≠ ""))

/-- Method `AdvancedMACCosmeticsScraper.save_to_json` (`mac_advanced_scraper.py`
lines 496-534): identical image filter (`[p for p in products if
p.get('image_url')]`, line 500). -/
def save_to_json_advanced (products : List Product) : List Product :=
  products.filter (fun p => decide (p.image_url ≠ ""))

/-- The observable states of `self.progress_file` when
`BatchedMACCosmeticsScraper.load_progress` runs (`mac_final_scraper.py` lines
63-75): the file may be absent, unreadable (`open` raises), hold malformed
JSON or JSON of the wrong shape (`json.load` or the `set(...)` conversion
raises), or hold a well-formed `scraped_urls` list. -/
inductive ProgressFile (α : Type _) where
  | missing : ProgressFile α
  | unreadable : ProgressFile α
  | malformed : ProgressFile α
  | valid : List α → ProgressFile α

/-- Method `BatchedMACCosmeticsScraper.load_progress` (`mac_final_scraper.py` lines
63-75). `self.scraped_urls` starts as the empty set (line 60). A missing file
leaves it empty (the `else` branch only logs); any exception inside the `try`
is caught and resets it to the empty set; a well-formed file replaces it with
the stored URL list. The function is total: no failure escapes it. -/
def load_progress {α} : ProgressFile α → List α
  | ProgressFile.missing => []
  | ProgressFile.unreadable => []
  | ProgressFile.malformed => []
  | ProgressFile.valid urls => urls

/-! ## Durability of the progress ledger

`scrape_batched` mutates the in-memory set `self.scraped_urls` once per
finalized item (`mac_final_scraper.py` line 431) and calls `save_progress`
exactly once, after the loop (line 440); `save_progress` (lines 77-88) writes
the whole in-memory set to the progress file. We model a run as the sequence
of these two kinds of events and fold them over an explicit
(in-memory, on-disk) state, so that an externally interrupted run is a prefix
of the event sequence. -/

/-- A ledger event of one run: an in-memory `record` of a finalized item's URL
(line 431) or the end-of-run `flush` of `save_progress` (line 440). -/
inductive LedgerEvent (α : Type _) where
  | record : α → LedgerEvent α
  | flush : LedgerEvent α

/-- The scraper's ledger state: the in-memory set `self.scraped_urls` and the
contents of the durable progress file `scraping_progress.json`. -/
structure LedgerState (α : Type _) where
  mem : List α
  disk : List α
deriving DecidableEq

/-- Effect of one event: `record u` adds `u` to the in-memory set only;
`flush` writes the in-memory set to the progress file. -/
def ledgerStep {α} (s : LedgerState α) : LedgerEvent α → LedgerState α
  | LedgerEvent.record u => { s with mem := s.mem ++ [u] }
  | LedgerEvent.flush => { s with disk := s.mem }

/-- The event sequence of one complete run of `scrape_batched` over its
planned items: one `record` per item, in order, then the single `flush` of
`save_progress` at run end. -/
def runEvents {α} (planned : List α) : List (LedgerEvent α) :=
  planned.map LedgerEvent.record ++ [LedgerEvent.flush]

/-- Folding a sequence of ledger events over a starting state. An interrupted
run is `runLedger s ((runEvents planned).take k)` for some `k`. -/
def runLedger {α} (s : LedgerState α) (events : List (LedgerEvent α)) : LedgerState α :=
  events.foldl ledgerStep s

/-! ## Image extraction from a product detail page

`BatchedMACCosmeticsScraper.extract_image_from_product_page`
(`mac_final_scraper.py` lines 228-293). Python string/char semantics are
modelled over the `List Char` underlying Lean strings: `str.lower`, `str.strip`,
`'x' in s`, `re.sub(r'[^\w\s]', '', s)` become explicit character-list
functions below (ASCII behaviour, which is all the source's inputs exercise). -/

/-- Python's falsy-or over strings (`a or b`): `a` unless it is empty/None. -/
def pyOr (a b : String) : String := if a = "" then b else a

/-- Constant `self.base_url` (`mac_final_scraper.py` line 34). -/
def base_url : String := "https://www.maccosmetics.com"

/-- Python `str.lower()` (ASCII model). -/
def pyLower (s : String) : String := ⟨s.data.map Char.toLower⟩

/-- Python `needle in hay` on strings: substring containment. -/
def pyContains (hay needle : String) : Bool := decide (List.IsInfix needle.data hay.data)

/-- Test whether a URL carries its own scheme, as `urllib.parse` recognises
one: a leading ASCII letter followed by letters, digits, `+`, `-` or `.` up to
a `:`. Such URLs (`data:`, `ftp:`, `mailto:`, ...) are returned unchanged by
`urljoin` against an `https` base. -/
def hasUrlScheme (u : String) : Bool :=
  match u.data with
  | [] => false
  | c :: _ =>
    c.isAlpha &&
      (match u.data.dropWhile (fun d => d.isAlphanum || d = '+' || d = '-' || d = '.') with
       | ':' :: _ => true
       | _ => false)

/-- Call `urljoin(self.base_url, img_url)` applied only when the URL does not
start with `http` (`mac_final_scraper.py` lines 263-264), modelling Python's
`urllib.parse.urljoin` against the fixed absolute base: an empty URL yields
the base; a scheme-relative `//host/path` URL inherits the base's `https`
scheme (and so escapes the base host); a URL with its own scheme (`data:`,
`ftp:`, ...) is returned unchanged; a root-relative path is appended to the
base; any other relative reference is appended after a `/` (dot-segment
normalisation and bare query/fragment joining are approximated this way,
which never changes whether the result contains the base host's brand
token). -/
def absolutize (u : String) : String :=
  if u.startsWith "http" then u
  else if u = "" then base_url
  else if u.startsWith "//" then "https:" ++ u
  else if hasUrlScheme u then u
  else if u.startsWith "/" then base_url ++ u
  else base_url ++ "/" ++ u

/-- One `<img>` element as the scan sees it: its `src`, `data-src` and
`data-lazy` attributes, with `""` for an absent attribute (Python's
`element.get` returns `None`, and `or` treats `None` and `""` alike). -/
structure ImgTag where
  src : String
  dataSrc : String
  dataLazy : String
deriving DecidableEq

/-- Assignment `img_url = img_elem.get('src') or img_elem.get('data-src') or
img_elem.get('data-lazy')` (`mac_final_scraper.py` line 261). -/
def imgAttrUrl (i : ImgTag) : String := pyOr i.src (pyOr i.dataSrc i.dataLazy)

/-- The body of the selector scan for one `<img>` element
(`mac_final_scraper.py` lines 260-267): accept its URL when it is non-empty,
longer than 10 characters, and - after absolutization - contains `mac` or
`maccosmetics` (lowercased). -/
def acceptImage (i : ImgTag) : Option String :=
  let u := imgAttrUrl i
  if u ≠ "" ∧ 10 < u.length then
    let a := absolutize u
    if pyContains (pyLower a) "mac" || pyContains (pyLower a) "maccosmetics" then some a
    else none
  else none

/-- The direct selector scan (`mac_final_scraper.py` lines 242-267): the
`<img>` elements of the page, in the order the nested selector/element loops
visit them, are scanned for the first accepted URL. -/
def scanImages (doc : List ImgTag) : Option String := doc.findSome? acceptImage

/-- Python `\w` (ASCII model): letters, digits and underscore. -/
def isPyWordChar (c : Char) : Bool := c.isAlphanum || c = '_'

/-- Python `\s` / `str.strip()` whitespace (ASCII model). -/
def isPySpaceChar (c : Char) : Bool :=
  c = ' ' || c = '\t' || c = '\n' || c = '\r' || c = '\x0B' || c = '\x0C'

/-- Variable `product_name_clean` (`mac_final_scraper.py` lines 270-271):
`re.sub(r'[^\w\s]', '', product_name).replace(' ', '-').lower()`. The second
substitution `re.sub(r'[™®]', '', ...)` is a no-op because `™` and `®` are
neither word characters nor whitespace and were already removed. -/
def cleanedName (product_name : String) : String :=
  pyLower ⟨(product_name.data.filter (fun c => isPyWordChar c || isPySpaceChar c)).map
    (fun c => if c = ' ' then '-' else c)⟩

/-- Variable `potential_image_urls` (`mac_final_scraper.py` lines 274-278): the three
CDN URL patterns constructed from the cleaned product name (`split('-')[0]`
is the segment before the first hyphen). -/
def potentialImageUrls (product_name : String) : List String :=
  let clean := cleanedName product_name
  [ "https://sdcdn.io/mac/us/mac_sku_" ++ clean ++ "_1x1_0.png?width=1080&height=1080",
    "https://sdcdn.io/mac/us/mac_sku_" ++ (⟨clean.data.map (fun c => if c = '-' then '_' else c)⟩ : String)
      ++ "_1x1_0.png?width=1080&height=1080",
    "https://sdcdn.io/mac/us/mac_sku_" ++ (⟨clean.data.takeWhile (fun c => c ≠ '-')⟩ : String)
      ++ "_1x1_0.png?width=1080&height=1080" ]

/-- Variable `fallback_image` (`mac_final_scraper.py` line 291). -/
def fallback_image : String :=
  "https://sdcdn.io/mac/us/mac_sku_default_1x1_0.png?width=1080&height=1080"

/-- Method `extract_image_from_product_page` (`mac_final_scraper.py` lines 228-293).
The network is an input: `response` is `none` when `make_request` failed (the
only path returning `""`, line 237), and `probe` is the HEAD request for a
constructed CDN URL (`status_code == 200`, lines 283-284; an exception counts
as a failed probe). Otherwise: first accepted `<img>` URL, else first
constructed URL passing the probe, else the fixed fallback. -/
def extract_image_from_product_page (response : Option (List ImgTag)) (probe : String → Bool)
    (product_name : String) : String :=
  match response with
  | none => ""
  | some doc =>
    match scanImages doc with
    | some u => u
    | none =>
      match (potentialImageUrls product_name).find? probe with
      | some u => u
      | none => fallback_image

/-! ## The comprehensive scraper's two extraction stages

`ComprehensiveMACCosmeticsScraper.scrape_all_skincare_products`
(`mac_cosmetics_comprehensive_scraper.py` lines 383-636): stage 1 walks the
structural CSS selectors and keeps each extracted candidate that has both a
name and an image (`if product_info['name'] and product_info['image_url']`,
line 507); then, only `if len(products) < 50` (line 512), the regex-pattern
stage appends its candidates under the same acceptance test (line 608). The
two raw candidate streams are the inputs of the model. -/

/-- The acceptance test both stages apply: a truthy name and a truthy image
(`mac_cosmetics_comprehensive_scraper.py` lines 507 and 608). -/
def acceptedCandidate (p : Product) : Bool :=
  decide (p.name ≠ "") && decide (p.image_url ≠ "")

/-- The candidate list after the two stages of `scrape_all_skincare_products`
(`mac_cosmetics_comprehensive_scraper.py` lines 502-610): stage 1's accepted
candidates, followed by the regex stage's accepted candidates exactly when
stage 1 accepted fewer than 50. -/
def extractStages (structuralRaw regexRaw : List Product) : List Product :=
  let products := structuralRaw.filter acceptedCandidate
  if products.length < 50 then products ++ regexRaw.filter acceptedCandidate
  else products

/-! ## The advanced scraper's keyword-window text scan

Strategy 3 of `AdvancedMACCosmeticsScraper.extract_products_from_html`
(`mac_advanced_scraper.py` lines 199-222): for each keyword, every regex match
of `([A-Z][^.!?]*keyword[^.!?]*)` in the page text whose raw length is
strictly between 10 and 100 is turned into a bare-name candidate: name the
stripped match, no product URL, no image. The matches are the input of the
model; `validKeywordMatch` characterises the strings the pattern can
produce. -/

/-- The `self.product_keywords`-style keyword list used by strategy 3
(`mac_advanced_scraper.py` lines 201-204). -/
def product_keywords : List String :=
  ["Cleanser", "Serum", "Moisturizer", "Cream", "Oil", "Mask",
   "Treatment", "Primer", "Setting Spray", "Eye Cream", "Sunscreen"]

/-- Python `str.strip()` (ASCII model): drop whitespace from both ends. -/
def pyStrip (s : String) : String :=
  ⟨((s.data.dropWhile isPySpaceChar).reverse.dropWhile isPySpaceChar).reverse⟩

/-- A string the pattern `([A-Z][^.!?]*kw[^.!?]*)` can match: non-empty,
starts with an ASCII uppercase letter, contains the keyword, and contains no
sentence terminator. -/
def validKeywordMatch (kw m : String) : Bool :=
  (match m.data with
   | [] => false
   | c :: _ => 'A' ≤ c && c ≤ 'Z') &&
  pyContains m kw &&
  m.data.all (fun c => c ≠ '.' && c ≠ '!' && c ≠ '?')

/-- The candidate built from one keyword-window match
(`mac_advanced_scraper.py` lines 210-221): kept only when
`len(match) > 10 and len(match) < 100` (the length of the raw match, before
stripping); the stored name is `match.strip()`, and the candidate carries no
product URL and no image URL. -/
def keywordWindowCandidate (m : String) : Option Product :=
  if 10 < m.length ∧ m.length < 100 then
    some { name := pyStrip m, product_url := "", image_url := "" }
  else none

/-- Strategy 3 over the list of regex matches (concatenated over keywords, in
scan order). -/
def keywordWindowScan (ms : List String) : List Product :=
  ms.filterMap keywordWindowCandidate

/-! ## Basic lemmas about discovery and planning -/

theorem mem_dedupFirst {α} [DecidableEq α] (l : List α) :
    ∀ (seen : List α) (u : α), u ∈ dedupFirst seen l ↔ u ∈ l ∧ u ∉ seen := by
  induction l with
  | nil => intro seen u; simp [dedupFirst]
  | cons a as ih =>
    intro seen u
    by_cases ha : a ∈ seen
    · simp only [dedupFirst, if_pos ha, ih, List.mem_cons]
      constructor
      · tauto
      · rintro ⟨rfl | h1, h2⟩
        · exact absurd ha h2
        · exact ⟨h1, h2⟩
    · simp only [dedupFirst, if_neg ha, List.mem_cons, ih]
      by_cases hua : u = a
      · subst hua; tauto
      · tauto

theorem nodup_dedupFirst {α} [DecidableEq α] (l : List α) :
    ∀ seen : List α, (dedupFirst seen l).Nodup := by
  induction l with
  | nil => intro seen; simp [dedupFirst]
  | cons a as ih =>
    intro seen
    by_cases ha : a ∈ seen
    · simpa [dedupFirst, if_pos ha] using ih seen
    · simp only [dedupFirst, if_neg ha]
      refine List.nodup_cons.2 ⟨fun hmem => ?_, ih _⟩
      exact ((mem_dedupFirst as _ a).1 hmem).2 (List.mem_cons_self a seen)

theorem mem_newCandidates {α} [DecidableEq α] {scraped_urls candidates : List α} {u : α} :
    u ∈ newCandidates scraped_urls candidates ↔ u ∈ candidates ∧ u ∉ scraped_urls := by
  simp [newCandidates, mem_dedupFirst, List.mem_filter]

theorem nodup_newCandidates {α} [DecidableEq α] (scraped_urls candidates : List α) :
    (newCandidates scraped_urls candidates).Nodup :=
  nodup_dedupFirst _ []

/-- On a duplicate-free candidate list the discovery dedup is the identity and
only the ledger filter remains. -/
theorem newCandidates_eq_filter {α} [DecidableEq α] (scraped_urls : List α)
    {candidates : List α} (h : candidates.Nodup) :
    newCandidates scraped_urls candidates =
      candidates.filter (fun u => decide (u ∉ scraped_urls)) := by
  unfold newCandidates
  generalize hf : candidates.filter (fun u => decide (u ∉ scraped_urls)) = l
  have hl : l.Nodup := hf ▸ h.filter _
  clear hf h
  suffices haux : ∀ (l : List α) (seen : List α), l.Nodup → (∀ u ∈ l, u ∉ seen) →
      dedupFirst seen l = l by
    exact haux l [] hl (by simp)
  intro l
  induction l with
  | nil => intro seen _ _; rfl
  | cons a as ih =>
    intro seen hnd hdisj
    have ha : a ∉ seen := hdisj a (List.mem_cons_self a as)
    simp only [dedupFirst, if_neg ha]
    congr 1
    refine ih (a :: seen) (List.nodup_cons.1 hnd).2 (fun u hu => ?_)
    simp only [List.mem_cons]
    rintro (rfl | hs)
    · exact (List.nodup_cons.1 hnd).1 hu
    · exact hdisj u (List.mem_cons_of_mem _ hu) hs

/-- A planned item is never one the ledger already contains
(`mac_final_scraper.py` lines 203-206). -/
theorem planRun_not_mem_ledger {α} [DecidableEq α] (scraped_urls : List α) :
    ∀ (cats : List (List α)) (t : Nat) (u : α),
      u ∈ planRun scraped_urls cats t → u ∉ scraped_urls := by
  intro cats
  induction cats with
  | nil => intro t u hu; simp [planRun] at hu
  | cons c cs ih =>
    intro t u hu
    by_cases ht : max_total_products ≤ t
    · simp [planRun, if_pos ht] at hu
    · simp only [planRun, if_neg ht, List.mem_append] at hu
      rcases hu with hu | hu
      · exact (mem_newCandidates.1 (List.mem_of_mem_take hu)).2
      · exact ih _ u hu

/-- Every planned item comes from one of the categories' candidate lists. -/
theorem planRun_subset_flatten {α} [DecidableEq α] (scraped_urls : List α) :
    ∀ (cats : List (List α)) (t : Nat) (u : α),
      u ∈ planRun scraped_urls cats t → u ∈ cats.flatten := by
  intro cats
  induction cats with
  | nil => intro t u hu; simp [planRun] at hu
  | cons c cs ih =>
    intro t u hu
    by_cases ht : max_total_products ≤ t
    · simp [planRun, if_pos ht] at hu
    · simp only [planRun, if_neg ht, List.mem_append] at hu
      rcases hu with hu | hu
      · exact List.mem_flatten.2 ⟨c, List.mem_cons_self c cs,
          (mem_newCandidates.1 (List.mem_of_mem_take hu)).1⟩
      · simpa [List.flatten_cons, List.mem_append] using Or.inr (ih _ u hu)

/-- Once the global counter has reached the cap, nothing more is planned. -/
theorem planRun_eq_nil_of_cap {α} [DecidableEq α] (scraped_urls : List α)
    (cats : List (List α)) {t : Nat} (ht : max_total_products ≤ t) :
    planRun scraped_urls cats t = [] := by
  cases cats with
  | nil => rfl
  | cons c cs => simp [planRun, if_pos ht]

/-- When the categories' candidate lists are globally duplicate-free, so is
the planned work list. -/
theorem nodup_planRun {α} [DecidableEq α] (scraped_urls : List α) :
    ∀ (cats : List (List α)), cats.flatten.Nodup →
      ∀ t : Nat, (planRun scraped_urls cats t).Nodup := by
  intro cats
  induction cats with
  | nil => intro _ t; simp [planRun]
  | cons c cs ih =>
    intro hnd t
    by_cases ht : max_total_products ≤ t
    · simp [planRun, if_pos ht]
    · simp only [planRun, if_neg ht]
      have hcs : cs.flatten.Nodup := (List.nodup_append.1 (by simpa using hnd)).2.1
      have hdisj : c.Disjoint cs.flatten := (List.nodup_append.1 (by simpa using hnd)).2.2
      refine List.nodup_append.2 ⟨?_, ih hcs _, ?_⟩
      · exact (nodup_newCandidates scraped_urls c).sublist
          (List.take_sublist batch_size _)
      · intro u hu hu'
        exact hdisj (mem_newCandidates.1 (List.mem_of_mem_take hu)).1
          (planRun_subset_flatten scraped_urls cs _ u hu')

/-- Folding the per-item `record` events only grows the in-memory set; the
progress file is untouched. -/
theorem runLedger_records {α} (planned : List α) :
    ∀ s : LedgerState α,
      runLedger s (planned.map LedgerEvent.record) =
        { mem := s.mem ++ planned, disk := s.disk } := by
  induction planned with
  | nil => intro s; simp [runLedger]
  | cons a as ih =>
    intro s
    simp only [List.map_cons, runLedger, List.foldl_cons]
    rw [show List.foldl ledgerStep (ledgerStep s (LedgerEvent.record a)) (as.map LedgerEvent.record)
        = runLedger (ledgerStep s (LedgerEvent.record a)) (as.map LedgerEvent.record) from rfl, ih]
    simp [ledgerStep]

/-! ## C1 - every persisted product record has a non-empty image URL -/

/-- C1: every record in the persisted `products` array has a non-empty
`image_url`, for both the batched scraper (across any sequence of runs
accumulating into the output file) and the comprehensive scraper; hence a
record whose image was never resolved (empty `image_url`) is never part of the
persisted output. -/
theorem final_output_requires_image (runs : List (List Product)) (ps : List Product)
    (p q : Product) (hp : p ∈ batchedRunsOutput runs) (hq : q ∈ save_to_json_comprehensive ps) :
    p.image_url ≠ "" ∧ q.image_url ≠ "" := by
  constructor
  · suffices haux : ∀ (rs : List (List Product)) (acc : List Product),
        (∀ r ∈ acc, r.image_url ≠ "") →
        ∀ r ∈ rs.foldl save_to_json_batched acc, r.image_url ≠ "" by
      exact haux runs [] (by simp) p hp
    intro rs
    induction rs with
    | nil => intro acc hacc r hr; exact hacc r hr
    | cons l ls ih =>
      intro acc hacc r hr
      refine ih _ ?_ r hr
      intro x hx
      rcases List.mem_append.1 hx with hx | hx
      · exact hacc x hx
      · simpa using (List.mem_filter.1 hx).2
  · simpa using (List.mem_filter.1 hq).2

theorem final_output_requires_image_witness :
    ({ name := "n", product_url := "u", image_url := "i" } : Product).image_url ≠ "" ∧
    ({ name := "n", product_url := "u", image_url := "i" } : Product).image_url ≠ "" :=
  final_output_requires_image
    [[{ name := "n", product_url := "u", image_url := "i" }]]
    [{ name := "n", product_url := "u", image_url := "i" }] _ _
    (by decide) (by decide)

/-! ## C3 - the global per-run cap can be overrun -/

/-- Seven categories of nine fresh candidates each: 63 candidate new products
in total, more than `max_total_products = 60`. -/
def cats63 : List (List Nat) :=
  (List.range 7).map (fun i => (List.range 9).map (fun j => 10 * i + j))

/-- C3 (failing input): on `cats63` the planned work list has 63 items, not 60.
`scrape_batched` checks `total_scraped >= self.max_total_products` only
between categories (`mac_final_scraper.py` line 380) and then takes a full
batch (line 388), so allocation never stops mid-category: after six categories
the counter is 54 < 60 and the seventh contributes all nine of its candidates,
contradicting the claimed exact cap and the module's own documentation
("maximum of 60 products total"). -/
theorem batch_cap_overrun_on_63_candidates :
    max_total_products < (cats63.map List.length).sum ∧
    (planRun ([] : List Nat) cats63 0).length = 63 ∧
    (planRun ([] : List Nat) cats63 0).length ≠ max_total_products := by decide

/-! ## C4 - per-item progress is not durable; only the run-end flush is -/

/-- C4 (counterexample): with an empty initial ledger and two planned items,
interrupt the run after the first item was finalized (one `record` event, no
`flush`). The durable progress file is still empty, and the next run plans the
already-finalized item `1` again - the finalized item's work is lost, not just
the in-flight item's. -/
theorem record_not_durable_before_flush_cex :
    (1 : Nat) ∈ ([1, 2] : List Nat).take 1 ∧
    (runLedger (⟨[], []⟩ : LedgerState Nat) ((runEvents [1, 2]).take 1)).disk = [] ∧
    1 ∈ planRun ((runLedger (⟨[], []⟩ : LedgerState Nat) ((runEvents [1, 2]).take 1)).disk)
        [[1, 2]] 0 := by decide

/-- C4 (amended): the durable ledger is written only by the single
`save_progress` flush at run end. If a run is interrupted between any two work
items (any prefix of `k ≤ |planned|` events, i.e. before the flush), the
progress file is exactly what it was before the run - every item finalized in
the interrupted run is lost. After a completed run the file holds the starting
in-memory set plus all planned items, and items in the durable ledger are
never planned again by a later run. -/
theorem progress_flush_batched_at_run_end {α} [DecidableEq α] (s : LedgerState α)
    (planned : List α) (k : Nat) (hk : k ≤ planned.length) :
    (runLedger s ((runEvents planned).take k)).disk = s.disk ∧
    (runLedger s (runEvents planned)).disk = s.mem ++ planned ∧
    ∀ (cats : List (List α)) (t : Nat) (u : α),
      u ∈ (runLedger s (runEvents planned)).disk →
        u ∉ planRun ((runLedger s (runEvents planned)).disk) cats t := by
  have hfull : runLedger s (runEvents planned) =
      { mem := s.mem ++ planned, disk := s.mem ++ planned } := by
    unfold runEvents runLedger
    rw [List.foldl_append]
    rw [show List.foldl ledgerStep s (planned.map LedgerEvent.record)
        = runLedger s (planned.map LedgerEvent.record) from rfl, runLedger_records]
    simp [ledgerStep]
  refine ⟨?_, by rw [hfull], ?_⟩
  · have htake : (runEvents planned).take k = (planned.take k).map LedgerEvent.record := by
      unfold runEvents
      rw [List.take_append_of_le_length (by simpa using hk), List.map_take]
    rw [htake, runLedger_records]
  · intro cats t u hu hplan
    exact planRun_not_mem_ledger _ cats t u hplan hu

theorem progress_flush_batched_at_run_end_witness :
    (1 : Nat) ≤ ([1, 2] : List Nat).length ∧
    (runLedger (⟨[9], [7]⟩ : LedgerState Nat) ((runEvents [1, 2]).take 1)).disk = [7] ∧
    (runLedger (⟨[9], [7]⟩ : LedgerState Nat) (runEvents [1, 2])).disk = [9] ++ [1, 2] ∧
    (1 : Nat) ∉ planRun ((runLedger (⟨[9], [7]⟩ : LedgerState Nat) (runEvents [1, 2])).disk)
        [[1, 3]] 0 := by
  have h := progress_flush_batched_at_run_end (⟨[9], [7]⟩ : LedgerState Nat) [1, 2] 1 (by decide)
  exact ⟨by decide, h.1, h.2.1, h.2.2 [[1, 3]] 0 1 (by rw [h.2.1]; decide)⟩

/-! ## C5 - the image resolver falls back to the fixed default URL -/

/-- C5: for a product whose detail page was fetched but yielded no accepted
`<img>` URL in the selector scan, and whose three constructed CDN URLs all
fail the existence probe, `extract_image_from_product_page` returns the fixed
fallback URL, which is not the empty string. -/
theorem image_resolver_fallback (doc : List ImgTag) (probe : String → Bool)
    (product_name : String) (h1 : scanImages doc = none)
    (h2 : ∀ u ∈ potentialImageUrls product_name, probe u = false) :
    extract_image_from_product_page (some doc) probe product_name = fallback_image ∧
    fallback_image ≠ "" := by
  have hfind : (potentialImageUrls product_name).find? probe = none :=
    List.find?_eq_none.2 (fun x hx => by simp [h2 x hx])
  refine ⟨?_, by decide⟩
  simp [extract_image_from_product_page, h1, hfind]

theorem image_resolver_fallback_witness :
    scanImages [] = none ∧
    extract_image_from_product_page (some []) (fun _ => false) "studio fix serum" =
      fallback_image ∧ fallback_image ≠ "" :=
  ⟨rfl, image_resolver_fallback [] (fun _ => false) "studio fix serum" rfl (fun _ _ => rfl)⟩

/-! ## C6 - at most `batch_size` items are drawn from any one category -/

/-- C6: the planned work list is the concatenation of the per-category batches
(`all_new_products.extend(batch_products)`), and every per-category batch has
at most `batch_size = 10` items, no matter how many fresh candidates the
category yields and regardless of the running total. -/
theorem per_category_cap {α} [DecidableEq α] (scraped_urls : List α) :
    ∀ (cats : List (List α)) (t : Nat),
      planRun scraped_urls cats t = (planBatches scraped_urls cats t).flatten ∧
      ∀ b ∈ planBatches scraped_urls cats t, b.length ≤ batch_size := by
  intro cats
  induction cats with
  | nil => intro t; exact ⟨rfl, by simp [planBatches]⟩
  | cons c cs ih =>
    intro t
    by_cases ht : max_total_products ≤ t
    · refine ⟨?_, ?_⟩ <;> simp [planRun, planBatches, if_pos ht]
    · refine ⟨?_, ?_⟩
      · simp only [planRun, planBatches, if_neg ht, List.flatten_cons]
        rw [(ih _).1]
      · intro b hb
        simp only [planBatches, if_neg ht, List.mem_cons] at hb
        rcases hb with rfl | hb
        · rw [List.length_take]; exact Nat.min_le_left _ _
        · exact (ih _).2 b hb

theorem per_category_cap_witness :
    planRun ([] : List Nat) [[1, 2, 3]] 0 = (planBatches ([] : List Nat) [[1, 2, 3]] 0).flatten ∧
    ([1, 2, 3] : List Nat).length ≤ batch_size :=
  ⟨(per_category_cap ([] : List Nat) [[1, 2, 3]] 0).1,
   (per_category_cap ([] : List Nat) [[1, 2, 3]] 0).2 [1, 2, 3] (by decide)⟩

/-! ## C7 - the regex stage runs exactly when stage 1 is under 50 candidates -/

/-- C7: the regex-pattern stage contributes exactly when the structural stage
accepted fewer than 50 candidates; with 50 or more, the result is the
structural stage's candidates alone. -/
theorem regex_stage_iff_under_fifty (structuralRaw regexRaw : List Product) :
    (50 ≤ (structuralRaw.filter acceptedCandidate).length →
      extractStages structuralRaw regexRaw = structuralRaw.filter acceptedCandidate) ∧
    ((structuralRaw.filter acceptedCandidate).length < 50 →
      extractStages structuralRaw regexRaw =
        structuralRaw.filter acceptedCandidate ++ regexRaw.filter acceptedCandidate) := by
  constructor
  · intro h
    simp only [extractStages, if_neg (Nat.not_lt.2 h)]
  · intro h
    simp only [extractStages, if_pos h]

theorem regex_stage_iff_under_fifty_witness :
    (50 ≤ ((List.replicate 50 ({ name := "n", product_url := "u", image_url := "i" } : Product)).filter
        acceptedCandidate).length ∧
      extractStages (List.replicate 50 ({ name := "n", product_url := "u", image_url := "i" } : Product))
          [{ name := "m", product_url := "v", image_url := "j" }] =
        (List.replicate 50 ({ name := "n", product_url := "u", image_url := "i" } : Product)).filter
          acceptedCandidate) ∧
    ((([] : List Product).filter acceptedCandidate).length < 50 ∧
      extractStages ([] : List Product) [{ name := "m", product_url := "v", image_url := "j" }] =
        ([] : List Product).filter acceptedCandidate ++
          [({ name := "m", product_url := "v", image_url := "j" } : Product)].filter acceptedCandidate) :=
  ⟨⟨by decide, (regex_stage_iff_under_fifty _ _).1 (by decide)⟩,
   ⟨by decide, (regex_stage_iff_under_fifty _ _).2 (by decide)⟩⟩

/-! ## C9 - every load failure degrades to the empty ledger -/

/-- C9: whichever way loading the progress file fails - absent file,
unreadable file, malformed contents - `load_progress` yields the empty set of
previously scraped identities; being a total function, it never propagates a
failure (the Python `except` swallows every exception). -/
theorem load_progress_failure_empty {α} (fs : ProgressFile α)
    (h : fs = ProgressFile.missing ∨ fs = ProgressFile.unreadable ∨ fs = ProgressFile.malformed) :
    load_progress fs = [] := by
  rcases h with rfl | rfl | rfl <;> rfl

theorem load_progress_failure_empty_witness :
    load_progress (ProgressFile.malformed : ProgressFile Nat) = [] :=
  load_progress_failure_empty _ (Or.inr (Or.inr rfl))

/-! ## C10 - failed enrichment is still recorded, never retried, never emitted -/

/-- C10: a planned item's URL lands in the ledger unconditionally after its
enrichment pass, even when image resolution returned the empty string; its
record (with empty `image_url`) is withheld from the saved output, and no
later run with that ledger ever plans - hence ever emits - that URL again. -/
theorem failed_enrichment_never_retried (L0 planned : List String)
    (nameOf imgOf : String → String) (u : String)
    (hu : u ∈ planned) (himg : imgOf u = "") :
    u ∈ runLedgerAfter L0 planned ∧
    ({ name := nameOf u, product_url := u, image_url := imgOf u } : Product) ∉
      save_to_json_batched [] (scrapeRecords planned nameOf imgOf) ∧
    (∀ (cats : List (List String)) (t : Nat), u ∉ planRun (runLedgerAfter L0 planned) cats t) ∧
    ∀ (cats : List (List String)) (t : Nat) (nm im : String → String),
      ∀ p ∈ scrapeRecords (planRun (runLedgerAfter L0 planned) cats t) nm im,
        p.product_url ≠ u := by
  have hmemledger : u ∈ runLedgerAfter L0 planned := List.mem_append.2 (Or.inr hu)
  have hnoplan : ∀ (cats : List (List String)) (t : Nat),
      u ∉ planRun (runLedgerAfter L0 planned) cats t :=
    fun cats t hplan => planRun_not_mem_ledger _ cats t u hplan hmemledger
  refine ⟨hmemledger, ?_, hnoplan, ?_⟩
  · intro hmem
    simp only [save_to_json_batched, List.nil_append, List.mem_filter, himg] at hmem
    simpa using hmem.2
  · intro cats t nm im p hp
    obtain ⟨v, hv, rfl⟩ := List.mem_map.1 hp
    intro hpu
    have hvu : v = u := hpu
    exact hnoplan cats t (hvu ▸ hv)

theorem failed_enrichment_never_retried_witness :
    "a" ∈ runLedgerAfter [] ["a"] ∧
    ({ name := "a", product_url := "a", image_url := "" } : Product) ∉
      save_to_json_batched [] (scrapeRecords ["a"] (fun v => v) (fun _ => "")) ∧
    "a" ∉ planRun (runLedgerAfter [] ["a"]) [["a"], ["b"]] 0 := by
  have h := failed_enrichment_never_retried [] ["a"] (fun v => v) (fun _ => "") "a"
    (by simp) rfl
  exact ⟨h.1, h.2.1, h.2.2.1 [["a"], ["b"]] 0⟩

/-! ## C8 - keyword-window candidates: the length window precedes stripping -/

/-- C8 (counterexample): the raw match `"A Cleanser "` - producible by the
pattern `([A-Z][^.!?]*Cleanser[^.!?]*)`, whose trailing `[^.!?]*` matches
whitespace - has length 11, so it passes the `10 < len < 100` test, but its
stored name is the stripped `"A Cleanser"` of length 10: the synthesized
candidate's name is not strictly longer than 10 characters. -/
theorem keyword_scan_name_length_cex :
    validKeywordMatch "Cleanser" "A Cleanser " = true ∧
    keywordWindowScan ["A Cleanser "] =
      [{ name := "A Cleanser", product_url := "", image_url := "" }] ∧
    ¬ 10 < ({ name := "A Cleanser", product_url := "", image_url := "" } : Product).name.length := by
  decide

/-- C8 (amended): every keyword-window candidate arises from a raw match whose
length (before stripping) is strictly between 10 and 100, its name is the
stripped match (so it can be 10 characters or fewer), it carries an empty
image URL and an empty product URL, and it is therefore never part of any
image-filtered saved output. -/
theorem keyword_scan_candidate_shape (ms : List String) (p : Product)
    (hp : p ∈ keywordWindowScan ms) :
    (∃ m, m ∈ ms ∧ 10 < m.length ∧ m.length < 100 ∧ p.name = pyStrip m) ∧
    p.image_url = "" ∧ p.product_url = "" ∧
    ∀ ps : List Product, p ∉ save_to_json_advanced ps := by
  obtain ⟨m, hm, hsome⟩ := List.mem_filterMap.1 hp
  unfold keywordWindowCandidate at hsome
  by_cases hlen : 10 < m.length ∧ m.length < 100
  · rw [if_pos hlen] at hsome
    obtain rfl : ({ name := pyStrip m, product_url := "", image_url := "" } : Product) = p :=
      Option.some.inj hsome
    refine ⟨⟨m, hm, hlen.1, hlen.2, rfl⟩, rfl, rfl, ?_⟩
    intro ps hmem
    simpa using (List.mem_filter.1 hmem).2
  · rw [if_neg hlen] at hsome
    exact absurd hsome (by simp)

theorem keyword_scan_candidate_shape_witness :
    ({ name := "Basic Foaming Gel Cleanser", product_url := "", image_url := "" } : Product).image_url
      = "" ∧
    ({ name := "Basic Foaming Gel Cleanser", product_url := "", image_url := "" } : Product) ∉
      save_to_json_advanced
        [{ name := "Basic Foaming Gel Cleanser", product_url := "", image_url := "" }] := by
  have h := keyword_scan_candidate_shape ["Basic Foaming Gel Cleanser"]
    { name := "Basic Foaming Gel Cleanser", product_url := "", image_url := "" } (by decide)
  exact ⟨h.2.1, h.2.2.2 _⟩

/-! ## C2 - two runs over an unchanged source -/

/-- The planning loop overshoots the global cap by less than one batch: the
cap is only checked between categories, and a category adds at most
`batch_size` items. -/
theorem planRun_length_bound {α} [DecidableEq α] (scraped_urls : List α) :
    ∀ (cats : List (List α)) (t : Nat), t < max_total_products →
      t + (planRun scraped_urls cats t).length ≤ max_total_products + batch_size - 1 := by
  intro cats
  induction cats with
  | nil =>
    intro t ht
    simp only [planRun, List.length_nil, Nat.add_zero, max_total_products, batch_size] at ht ⊢
    omega
  | cons c cs ih =>
    intro t ht
    have hcond : ¬ max_total_products ≤ t := Nat.not_le.2 ht
    simp only [planRun, if_neg hcond, List.length_append]
    have hble : ((newCandidates scraped_urls c).take batch_size).length ≤ batch_size := by
      rw [List.length_take]; exact Nat.min_le_left _ _
    by_cases h2 : max_total_products ≤ t + ((newCandidates scraped_urls c).take batch_size).length
    · rw [planRun_eq_nil_of_cap scraped_urls cs h2]
      simp only [List.length_nil, max_total_products, batch_size] at ht hble ⊢
      omega
    · have := ih (t + ((newCandidates scraped_urls c).take batch_size).length) (Nat.not_le.1 h2)
      simp only [max_total_products, batch_size] at this ⊢
      omega

/-- When a run's final counter stays below the cap, the break never fired: the
plan took a full (up to `batch_size`) batch from every category. -/
theorem planRun_eq_flatten_of_lt {α} [DecidableEq α] (scraped_urls : List α) :
    ∀ (cats : List (List α)) (t : Nat),
      t + (planRun scraped_urls cats t).length < max_total_products →
      planRun scraped_urls cats t =
        (cats.map (fun c => (newCandidates scraped_urls c).take batch_size)).flatten := by
  intro cats
  induction cats with
  | nil => intro t _; simp [planRun]
  | cons c cs ih =>
    intro t ht
    have hcond : ¬ max_total_products ≤ t := by
      rcases Nat.lt_or_ge t max_total_products with h | h
      · exact Nat.not_le.2 h
      · exact absurd ht (by omega)
    simp only [planRun, if_neg hcond, List.length_append] at ht ⊢
    simp only [List.map_cons, List.flatten_cons]
    congr 1
    exact ih _ (by omega)

/-- The planned list is never longer than the sum of the per-category batch
sizes. -/
theorem planRun_length_le_sum {α} [DecidableEq α] (scraped_urls : List α) :
    ∀ (cats : List (List α)) (t : Nat),
      (planRun scraped_urls cats t).length ≤
        (cats.map (fun c => min batch_size (newCandidates scraped_urls c).length)).sum := by
  intro cats
  induction cats with
  | nil => intro t; simp [planRun]
  | cons c cs ih =>
    intro t
    by_cases ht : max_total_products ≤ t
    · simp [planRun, if_pos ht]
    · simp only [planRun, if_neg ht, List.length_append, List.map_cons, List.sum_cons,
        List.length_take]
      exact Nat.add_le_add (Nat.le_refl _) (ih _)

/-- Removing the first `n` elements of a duplicate-free list by membership
filtering is dropping them. -/
theorem filter_not_mem_take_eq_drop {α} [DecidableEq α] :
    ∀ (l : List α) (n : Nat), l.Nodup →
      l.filter (fun u => decide (u ∉ l.take n)) = l.drop n := by
  intro l
  induction l with
  | nil => intro n _; simp
  | cons a as ih =>
    intro n hnd
    cases n with
    | zero => simp
    | succ m =>
      have ha : a ∉ as := (List.nodup_cons.1 hnd).1
      rw [List.take_succ_cons, List.drop_succ_cons, List.filter_cons]
      rw [if_neg (by simp)]
      have hpt : ∀ u ∈ as,
          (fun u => decide (u ∉ a :: as.take m)) u = (fun u => decide (u ∉ as.take m)) u := by
        intro u hu
        have hne : u ≠ a := fun h => ha (h ▸ hu)
        simp [List.mem_cons, hne]
      rw [List.filter_congr hpt]
      have hlift : as.filter (fun u => decide (u ∉ as.take m)) = as.drop m :=
        ih m (List.nodup_cons.1 hnd).2
      exact hlift

/-- Core bound for a second run: when the ledger already holds the first
`batch_size` elements of every category (plus extra entries `E` foreign to the
categories), and the categories are globally duplicate-free, a run plans at
most `min batch_size |c|` items per category. -/
theorem planRun_second_bound {α} [DecidableEq α] :
    ∀ (cats : List (List α)) (E : List α) (t : Nat),
      cats.flatten.Nodup → (∀ x ∈ E, x ∉ cats.flatten) →
      (planRun (E ++ (cats.map (fun c => c.take batch_size)).flatten) cats t).length ≤
        (cats.map (fun c => min batch_size c.length)).sum := by
  intro cats
  induction cats with
  | nil => intro E t _ _; simp [planRun]
  | cons c cs ih =>
    intro E t hnd hE
    by_cases ht : max_total_products ≤ t
    · simp [planRun, if_pos ht]
    · have hcnd : c.Nodup := (List.nodup_append.1 (by simpa using hnd)).1
      have hcsnd : cs.flatten.Nodup := (List.nodup_append.1 (by simpa using hnd)).2.1
      have hdisj : c.Disjoint cs.flatten := (List.nodup_append.1 (by simpa using hnd)).2.2
      have hnewc : newCandidates (E ++ ((c :: cs).map (fun c => c.take batch_size)).flatten) c =
          c.drop batch_size := by
        rw [newCandidates_eq_filter _ hcnd, ← filter_not_mem_take_eq_drop c batch_size hcnd]
        apply List.filter_congr
        intro x hx
        have hiff : x ∉ E ++ ((c :: cs).map (fun c => c.take batch_size)).flatten ↔
            x ∉ c.take batch_size := by
          rw [not_iff_not]
          simp only [List.map_cons, List.flatten_cons, List.mem_append]
          constructor
          · rintro (hxe | hxt | hxrest)
            · exact absurd (List.mem_flatten.2 ⟨c, List.mem_cons_self c cs, hx⟩) (hE x hxe)
            · exact hxt
            · exfalso
              obtain ⟨l, hl, hxl⟩ := List.mem_flatten.1 hxrest
              obtain ⟨c', hc', rfl⟩ := List.mem_map.1 hl
              exact hdisj hx (List.mem_flatten.2 ⟨c', hc', List.mem_of_mem_take hxl⟩)
          · intro hxt
            exact Or.inr (Or.inl hxt)
        simp only [decide_eq_decide]
        exact hiff
      simp only [planRun, if_neg ht]
      rw [hnewc, List.length_append]
      conv_rhs => rw [List.map_cons, List.sum_cons]
      have hlen1 : ((c.drop batch_size).take batch_size).length ≤ min batch_size c.length := by
        rw [List.length_take, List.length_drop]
        omega
      have hrest : (planRun (E ++ ((c :: cs).map (fun c => c.take batch_size)).flatten) cs
          (t + ((c.drop batch_size).take batch_size).length)).length ≤
          (cs.map (fun c => min batch_size c.length)).sum := by
        have hre : E ++ ((c :: cs).map (fun c => c.take batch_size)).flatten =
            (E ++ c.take batch_size) ++ (cs.map (fun c => c.take batch_size)).flatten := by
          simp [List.map_cons, List.flatten_cons, List.append_assoc]
        rw [hre]
        apply ih (E ++ c.take batch_size) _ hcsnd
        intro x hxm
        rcases List.mem_append.1 hxm with hxm | hxm
        · intro hxcs
          exact hE x hxm (by simpa using Or.inr hxcs)
        · exact fun hxcs => hdisj (List.mem_of_mem_take hxm) hxcs
      exact Nat.add_le_add hlen1 hrest

/-- C2 (counterexample input): six categories of ten fresh candidates followed
by seven categories of nine, all distinct. -/
def catsTwoRun : List (List Nat) :=
  (List.range 6).map (fun i => (List.range 10).map (fun j => 100 * i + j)) ++
    (List.range 7).map (fun i => (List.range 9).map (fun j => 1000 + 100 * i + j))

/-- C2 (counterexample): both conjuncts of the claim fail on the code.
Count: on `catsTwoRun` (globally duplicate-free candidates) the first, fresh
run plans exactly 60 products - the break fires right after the six
ten-candidate categories - while the second run, resuming from the
carried-over ledger, plans the seven nine-candidate categories: 54 is still
below the cap before the last one, so it plans 63 > 60 products.
Duplicates: `self.scraped_urls` is only updated in step 3, after all
discovery and planning, so a product listed under two categories is planned
twice by a single fresh run (`planRun` on `[["u"], ["u"]]` yields
`["u", "u"]`) and its enriched record is emitted twice by `save_to_json`;
the combined output of the two runs then contains a duplicate identity even
though the ledger was carried over. -/
theorem idempotent_resume_claim_cex :
    (catsTwoRun.flatten.Nodup ∧
      (planRun ([] : List Nat) catsTwoRun 0).length = 60 ∧
      (planRun (runLedgerAfter [] (planRun ([] : List Nat) catsTwoRun 0)) catsTwoRun 0).length =
        63 ∧
      ¬ ((planRun (runLedgerAfter [] (planRun ([] : List Nat) catsTwoRun 0)) catsTwoRun 0).length ≤
          (planRun ([] : List Nat) catsTwoRun 0).length)) ∧
    (planRun ([] : List String) [["u"], ["u"]] 0 = ["u", "u"] ∧
      save_to_json_batched [] (scrapeRecords (planRun ([] : List String) [["u"], ["u"]] 0)
          (fun v => v) (fun _ => fallback_image)) =
        [{ name := "u", product_url := "u", image_url := fallback_image },
         { name := "u", product_url := "u", image_url := fallback_image }] ∧
      ¬ (planRun ([] : List String) [["u"], ["u"]] 0 ++
          planRun (runLedgerAfter [] (planRun ([] : List String) [["u"], ["u"]] 0))
            [["u"], ["u"]] 0).Nodup) := by
  decide

/-- C2 (amended): over an unchanged source whose categories yield globally
duplicate-free candidate lists, running the pipeline twice with the ledger
carried over yields zero duplicate identities in the combined planned output
of both runs; and the second run's new-product count is at most the first
run's plus `batch_size - 1 = 9`. Both weakenings are forced by
`idempotent_resume_claim_cex`: without the duplicate-free proviso a product
listed under two categories is planned twice by one run, and the count is not
always `≤` the first run's because the cap is only checked between
categories, so a first run blocking at exactly 60 lets the second overshoot. -/
theorem two_run_resume_nodup_and_bound {α} [DecidableEq α] (cats : List (List α))
    (hnd : cats.flatten.Nodup) :
    (planRun ([] : List α) cats 0 ++
        planRun (runLedgerAfter [] (planRun ([] : List α) cats 0)) cats 0).Nodup ∧
    (planRun (runLedgerAfter [] (planRun ([] : List α) cats 0)) cats 0).length ≤
      (planRun ([] : List α) cats 0).length + (batch_size - 1) := by
  have hledger : runLedgerAfter ([] : List α) (planRun ([] : List α) cats 0)
      = planRun ([] : List α) cats 0 := by simp [runLedgerAfter]
  rw [hledger]
  constructor
  · refine List.nodup_append.2
      ⟨nodup_planRun _ cats hnd 0, nodup_planRun _ cats hnd 0, ?_⟩
    intro u hu1 hu2
    exact planRun_not_mem_ledger _ cats 0 u hu2 hu1
  · by_cases hbig : max_total_products ≤ (planRun ([] : List α) cats 0).length
    · have hcap := planRun_length_bound (planRun ([] : List α) cats 0) cats 0 (by decide)
      simp only [max_total_products, batch_size] at hcap hbig ⊢
      omega
    · have hsmall : 0 + (planRun ([] : List α) cats 0).length < max_total_products := by
        omega
      have hflat := planRun_eq_flatten_of_lt ([] : List α) cats 0 hsmall
      have hmapeq : cats.map (fun c => (newCandidates ([] : List α) c).take batch_size) =
          cats.map (fun c => c.take batch_size) := by
        apply List.map_congr_left
        intro c hc
        have hcnd : c.Nodup := (List.nodup_flatten.1 hnd).1 c hc
        rw [newCandidates_eq_filter _ hcnd, List.filter_eq_self.2 (by intro a _; simp)]
      have hP1eq : planRun ([] : List α) cats 0 =
          (cats.map (fun c => c.take batch_size)).flatten := by rw [hflat, hmapeq]
      have haux := planRun_second_bound cats [] 0 hnd (by simp)
      rw [List.nil_append] at haux
      have hlen : ((cats.map (fun c => c.take batch_size)).flatten).length =
          (cats.map (fun c => min batch_size c.length)).sum := by
        rw [List.length_flatten, List.map_map]
        congr 1
        apply List.map_congr_left
        intro c _
        simp [List.length_take]
      calc (planRun (planRun ([] : List α) cats 0) cats 0).length
          = (planRun ((cats.map (fun c => c.take batch_size)).flatten) cats 0).length := by
            rw [← hP1eq]
        _ ≤ (cats.map (fun c => min batch_size c.length)).sum := haux
        _ = (planRun ([] : List α) cats 0).length := by rw [hP1eq, hlen]
        _ ≤ (planRun ([] : List α) cats 0).length + (batch_size - 1) := Nat.le_add_right _ _

theorem two_run_resume_nodup_and_bound_witness :
    ([[1, 2], [3]] : List (List Nat)).flatten.Nodup ∧
    ((planRun ([] : List Nat) [[1, 2], [3]] 0 ++
        planRun (runLedgerAfter [] (planRun ([] : List Nat) [[1, 2], [3]] 0)) [[1, 2], [3]] 0).Nodup ∧
      (planRun (runLedgerAfter [] (planRun ([] : List Nat) [[1, 2], [3]] 0)) [[1, 2], [3]] 0).length ≤
        (planRun ([] : List Nat) [[1, 2], [3]] 0).length + (batch_size - 1)) :=
  ⟨by decide, two_run_resume_nodup_and_bound [[1, 2], [3]] (by decide)⟩

end MacScraper
